import Mathlib

/-!
Shallow embedding of `src/PBI_sales/generate_sales_data.py`.

The script builds five tables (customers, products, date dimension, sales
facts, daily quality metrics) driven by three pseudo-random generators:
the `random` module, numpy's global generator, and Faker.  Each generator
is modelled as an abstract stream of values together with a cursor; a
library sampling call reads the value at the cursor and advances it.
Real numbers are modelled as exact rationals; Python's `round` is
modelled as round-half-to-even.  pandas missing values are modelled
explicitly: a float column holds `PVal.nan` for `NaN`, object fields use
`Option`, and `PVal.null` stands for the Python `None` object stored in
a row dictionary before DataFrame conversion.
-/

set_option maxRecDepth 100000

namespace PBISales

/-- Calendar date (proleptic Gregorian year, month, day). -/
structure Date where
  year : Nat
  month : Nat
  day : Nat
deriving DecidableEq, Repr

instance : Inhabited Date := ⟨⟨1970, 1, 1⟩⟩

/-- Gregorian leap-year rule. -/
def isLeap (y : Nat) : Bool := (y % 4 == 0 && y % 100 != 0) || y % 400 == 0

def daysInMonth (y m : Nat) : Nat :=
  if m = 2 then (if isLeap y then 29 else 28)
  else if m = 4 ∨ m = 6 ∨ m = 9 ∨ m = 11 then 30
  else 31

theorem daysInMonth_bounds (y m : Nat) : 28 ≤ daysInMonth y m ∧ daysInMonth y m ≤ 31 := by
  unfold daysInMonth
  split
  · split <;> omega
  · split <;> omega

def validDate (d : Date) : Prop :=
  1 ≤ d.month ∧ d.month ≤ 12 ∧ 1 ≤ d.day ∧ d.day ≤ daysInMonth d.year d.month

instance validDate.dec (d : Date) : Decidable (validDate d) := by
  unfold validDate; infer_instance

/-- Successor day in the calendar. -/
def nextDate (d : Date) : Date :=
  if d.day + 1 ≤ daysInMonth d.year d.month then ⟨d.year, d.month, d.day + 1⟩
  else if d.month + 1 ≤ 12 then ⟨d.year, d.month + 1, 1⟩
  else ⟨d.year + 1, 1, 1⟩

/-- `date + timedelta(days=k)`. -/
def addDays (d : Date) (k : Nat) : Date := nextDate^[k] d

def Date.le (a b : Date) : Prop :=
  a.year < b.year ∨ (a.year = b.year ∧
    (a.month < b.month ∨ (a.month = b.month ∧ a.day ≤ b.day)))

def Date.lt (a b : Date) : Prop :=
  a.year < b.year ∨ (a.year = b.year ∧
    (a.month < b.month ∨ (a.month = b.month ∧ a.day < b.day)))

instance Date.le.dec (a b : Date) : Decidable (Date.le a b) := by
  unfold Date.le; infer_instance

instance Date.lt.dec (a b : Date) : Decidable (Date.lt a b) := by
  unfold Date.lt; infer_instance

/-- The inclusive list of days from `s` to `e`, as produced by
`pd.date_range(start=s, end=e)` (empty when `s` is after `e`). -/
def dateRange (s e : Date) : List Date :=
  if h : Date.le s e then s :: dateRange (nextDate s) e else []
termination_by (e.year + 1 - s.year) * 500 + (13 - s.month) * 35 + (32 - s.day)
decreasing_by
  have hb := daysInMonth_bounds s.year s.month
  have hy : s.year ≤ e.year := by
    rcases h with h | ⟨h1, _⟩ <;> omega
  unfold nextDate
  split
  · dsimp only
    omega
  · split <;> dsimp only <;> omega

/-! ### Pseudo-random generator model

Python's `random` module and numpy's global generator are each modelled
as an abstract stream `f : Nat → Rat` of uniform draws in `[0,1)` plus a
cursor; a sampling call reads `f k` and advances the cursor.  A seeded
generator corresponds to a fixed stream; the stream of an unseeded
generator is an arbitrary input of the run. -/

structure RandState where
  f : Nat → Rat
  k : Nat

/-- The stream yields values in `[0,1)`, as `random.random` does. -/
def WfRand (s : RandState) : Prop := ∀ n, 0 ≤ s.f n ∧ s.f n < 1

/-- `random.random()`: one uniform draw in `[0,1)`. -/
def rnd (s : RandState) : Rat × RandState := (s.f s.k, ⟨s.f, s.k + 1⟩)

/-- Model of `random.uniform(a, b)` = `a + (b-a)*random()`. -/
def pyUniform (a b : Rat) (s : RandState) : Rat × RandState :=
  let p := rnd s
  (a + (b - a) * p.1, p.2)

/-- Model of `random.randint(a, b)`: uniform integer in `[a, b]`. -/
def pyRandint (a b : Int) (s : RandState) : Int × RandState :=
  let p := rnd s
  (a + ⌊p.1 * ((b : Rat) - (a : Rat) + 1)⌋, p.2)

/-- Model of `random.choice(l)`: the element at a uniform index.
`random.choice` raises on an empty sequence; the model returns the
default element there (the script only calls it on nonempty lists). -/
def pyChoice [Inhabited α] (l : List α) (s : RandState) : α × RandState :=
  let p := rnd s
  (l.getD (⌊p.1 * (l.length : Rat)⌋).toNat default, p.2)

/-- Model of `np.random.choice(range n, size=k)`: `k` independent
uniform index draws, i.e. sampling WITH replacement (numpy's default). -/
def npChoiceIdx (n : Nat) : Nat → RandState → List Nat × RandState
  | 0, s => ([], s)
  | k + 1, s =>
    let p := rnd s
    let q := npChoiceIdx n k p.2
    ((⌊p.1 * (n : Rat)⌋).toNat :: q.1, q.2)

/-- Faker's seeded generator, abstracted as deterministic streams of
strings (`company`, `name`, `catch_phrase`, `email`, `phone_number`) and
dates (`date_between`) with a cursor.  Modelled from the library. -/
structure FakerState where
  strs : Nat → String
  dts : Nat → Date
  k : Nat

def fakeStr (s : FakerState) : String × FakerState :=
  (s.strs s.k, ⟨s.strs, s.dts, s.k + 1⟩)

def fakeDate (s : FakerState) : Date × FakerState :=
  (s.dts s.k, ⟨s.strs, s.dts, s.k + 1⟩)

/-! ### Python / pandas value model -/

/-- A cell of a pandas float column, or a Python numeric-or-missing
value: a finite number, float `NaN` (pandas missing marker), or the
Python `None` object. -/
inductive PVal where
  | num (q : Rat)
  | nan
  | null
deriving DecidableEq, Repr

/-- True when the value serializes as an empty CSV field (both `NaN`
and `None` do). -/
def PVal.isMissing : PVal → Bool
  | .num _ => false
  | _ => true

/-- Round-half-to-even to an integer, the rule Python's `round` uses. -/
def roundHalfEven (x : Rat) : Int :=
  if x - ⌊x⌋ < 1 / 2 then ⌊x⌋
  else if 1 / 2 < x - ⌊x⌋ then ⌊x⌋ + 1
  else if ⌊x⌋ % 2 = 0 then ⌊x⌋ else ⌊x⌋ + 1

/-- Model of Python `round(x, 2)` over exact rationals. -/
def round2 (x : Rat) : Rat := (roundHalfEven (x * 100) : Rat) / 100

theorem roundHalfEven_le (x : Rat) : (roundHalfEven x : Rat) ≤ x + 1 / 2 := by
  unfold roundHalfEven
  have h1 := Int.floor_le x
  have h2 := Int.lt_floor_add_one x
  split
  · linarith
  · split
    · push_cast
      linarith
    · split
      · linarith
      · push_cast
        rename_i hlt hge _
        rw [not_lt] at hlt hge
        linarith

theorem le_roundHalfEven (x : Rat) : x - 1 / 2 ≤ (roundHalfEven x : Rat) := by
  unfold roundHalfEven
  have h1 := Int.floor_le x
  have h2 := Int.lt_floor_add_one x
  split
  · rename_i hr
    linarith
  · split
    · push_cast
      linarith
    · split
      · rename_i hlt hge _
        rw [not_lt] at hlt hge
        linarith
      · push_cast
        linarith

theorem round2_le (x : Rat) : round2 x ≤ x + 1 / 200 := by
  unfold round2
  have := roundHalfEven_le (x * 100)
  rw [div_le_iff₀ (by norm_num)]
  linarith

theorem le_round2 (x : Rat) : x - 1 / 200 ≤ round2 x := by
  unfold round2
  have := le_roundHalfEven (x * 100)
  rw [le_div_iff₀ (by norm_num)]
  linarith

/-! ### Customer dimension (`generate_customer_data`) -/

def segments : List String := ["Consumer", "Corporate", "Small Business", "Enterprise"]

def regions : List String := ["North", "South", "East", "West", "Central"]

def countries : List String :=
  ["United States", "Canada", "United Kingdom", "Germany", "France",
   "Spain", "Italy", "Australia", "Japan", "Brazil"]

def creditLimits : List Nat := [1000, 2000, 5000, 10000, 20000, 50000]

def payments : List String := ["Credit Card", "Bank Transfer", "PayPal"]

structure Customer where
  customerID : Nat
  customerName : String
  country : String
  region : String
  segment : String
  joinDate : Date
  creditLimit : Nat
  preferredPayment : String
  email : Option String
  phone : Option String
deriving DecidableEq, Repr

/-- One iteration of the customer loop.  The name is drawn from Faker
(`company()` when the coin draw exceeds 1/2, else `name()`); both
branches consume one abstract Faker string. -/
def genCustomerRow (i : Nat) (fk : FakerState) (py : RandState) :
    Customer × FakerState × RandState :=
  let pc := rnd py
  let nm := fakeStr fk
  let co := pyChoice countries pc.2
  let re := pyChoice regions co.2
  let se := pyChoice segments re.2
  let jd := fakeDate nm.2
  let cl := pyChoice creditLimits se.2
  let pp := pyChoice payments cl.2
  let em := fakeStr jd.2
  let ph := fakeStr em.2
  (⟨i, nm.1, co.1, re.1, se.1, jd.1, cl.1, pp.1, some em.1, some ph.1⟩, ph.2, pp.2)

/-- The loop `for i in range(1, num_customers + 1)`. -/
def genCustomersFrom : Nat → Nat → FakerState → RandState →
    List Customer × FakerState × RandState
  | _, 0, fk, py => ([], fk, py)
  | i, n + 1, fk, py =>
    let r := genCustomerRow i fk py
    let rest := genCustomersFrom (i + 1) n r.2.1 r.2.2
    (r.1 :: rest.1, rest.2)

/-- Overwrite, at every listed 0-based position, a field of the row
(`df.loc[indices, col] = None`); `i` is the position of the head. -/
def setAtIdxs (g : α → α) (idxs : List Nat) : Nat → List α → List α
  | _, [] => []
  | i, x :: xs => (if i ∈ idxs then g x else x) :: setAtIdxs g idxs (i + 1) xs

/-- The five indices drawn for the Email injection. -/
def custEmailIdx (n : Nat) (np : RandState) : List Nat := (npChoiceIdx n 5 np).1

/-- The five indices drawn for the Phone injection (drawn after the
Email indices, from the advanced numpy state). -/
def custPhoneIdx (n : Nat) (np : RandState) : List Nat :=
  (npChoiceIdx n 5 (npChoiceIdx n 5 np).2).1

def generate_customer_data (n : Nat) (fk : FakerState) (py np : RandState) :
    List Customer × FakerState × RandState × RandState :=
  let g := genCustomersFrom 1 n fk py
  let np1 := (npChoiceIdx n 5 np).2
  let np2 := (npChoiceIdx n 5 np1).2
  let cs1 := setAtIdxs (fun c => { c with email := Option.none }) (custEmailIdx n np) 0 g.1
  let cs2 := setAtIdxs (fun c => { c with phone := Option.none }) (custPhoneIdx n np) 0 cs1
  (cs2, g.2.1, g.2.2, np2)

/-! ### Product dimension (`generate_product_data`) -/

def categories : List String :=
  ["Electronics", "Furniture", "Office Supplies", "Software", "Hardware"]

/-- The `subcategories` dict; the argument is always one of the five
category names. -/
def subcategoriesOf (c : String) : List String :=
  if c = "Electronics" then ["Phones", "Laptops", "Tablets", "Monitors", "Accessories"]
  else if c = "Furniture" then ["Chairs", "Desks", "Tables", "Storage", "Furnishings"]
  else if c = "Office Supplies" then ["Paper", "Binders", "Art", "Supplies", "Labels"]
  else if c = "Software" then ["Operating Systems", "Security", "Utilities", "Business", "Design"]
  else ["Processors", "Memory", "Storage", "Peripherals", "Networking"]

structure Product where
  productID : Nat
  productName : String
  category : String
  subCategory : String
  unitPrice : Rat
  cost : Option Rat
  weight : Rat
  stockLevel : Int
  reorderPoint : Int
  minimumOrderQuantity : Int
deriving DecidableEq, Repr

instance : Inhabited Product := ⟨⟨0, "", "", "", 0, Option.none, 0, 0, 0, 0⟩⟩

/-- One iteration of the product loop.  `Cost` starts as a placeholder
and is recomputed as `round(UnitPrice * uniform(0.4, 0.7), 2)` after all
other fields; the product table's Cost column is a float column, so a
present value is `some`, and the later `None` injection stores `NaN`
(modelled as `Option.none`). -/
def genProductRow (i : Nat) (fk : FakerState) (py : RandState) :
    Product × FakerState × RandState :=
  let ca := pyChoice categories py
  let nm := fakeStr fk
  let sc := pyChoice (subcategoriesOf ca.1) ca.2
  let up := pyUniform 10 2000 sc.2
  let we := pyUniform (1 / 10) 50 up.2
  let st := pyRandint 0 500 we.2
  let re := pyRandint 10 100 st.2
  let mo := pyRandint 1 10 re.2
  let cf := pyUniform (2 / 5) (7 / 10) mo.2
  ({ productID := i
     productName := nm.1
     category := ca.1
     subCategory := sc.1
     unitPrice := round2 up.1
     cost := some (round2 (round2 up.1 * cf.1))
     weight := round2 we.1
     stockLevel := st.1
     reorderPoint := re.1
     minimumOrderQuantity := mo.1 }, nm.2, cf.2)

def genProductsFrom : Nat → Nat → FakerState → RandState →
    List Product × FakerState × RandState
  | _, 0, fk, py => ([], fk, py)
  | i, n + 1, fk, py =>
    let r := genProductRow i fk py
    let rest := genProductsFrom (i + 1) n r.2.1 r.2.2
    (r.1 :: rest.1, rest.2)

/-- The three indices drawn for the `UnitPrice = 0` injection. -/
def prodPriceIdx (n : Nat) (np : RandState) : List Nat := (npChoiceIdx n 3 np).1

/-- The three indices drawn for the `Cost = None` injection. -/
def prodCostIdx (n : Nat) (np : RandState) : List Nat :=
  (npChoiceIdx n 3 (npChoiceIdx n 3 np).2).1

def generate_product_data (n : Nat) (fk : FakerState) (py np : RandState) :
    List Product × FakerState × RandState × RandState :=
  let g := genProductsFrom 1 n fk py
  let np1 := (npChoiceIdx n 3 np).2
  let np2 := (npChoiceIdx n 3 np1).2
  let ps1 := setAtIdxs (fun p => { p with unitPrice := 0 }) (prodPriceIdx n np) 0 g.1
  let ps2 := setAtIdxs (fun p => { p with cost := Option.none }) (prodCostIdx n np) 0 ps1
  (ps2, g.2.1, g.2.2, np2)

/-! ### Date dimension (`generate_date_dimension`) -/

def monthNames : List String :=
  ["January", "February", "March", "April", "May", "June",
   "July", "August", "September", "October", "November", "December"]

def dayNames : List String :=
  ["Monday", "Tuesday", "Wednesday", "Thursday", "Friday", "Saturday", "Sunday"]

/-- Day of week with Monday = 0, as Python's `date.weekday()`
(Sakamoto's congruence shifted from Sunday-first to Monday-first). -/
def dayOfWeekMon0 (d : Date) : Nat :=
  let t : List Nat := [0, 3, 2, 5, 0, 3, 5, 1, 4, 6, 2, 4]
  let y := if d.month < 3 then d.year - 1 else d.year
  (y + y / 4 - y / 100 + y / 400 + t.getD (d.month - 1) 0 + d.day + 6) % 7

structure DateRow where
  dateKey : Nat
  date : Date
  year : Nat
  quarter : Nat
  month : Nat
  monthName : String
  weekDay : Nat
  weekDayName : String
  isWeekend : Nat
  isHoliday : Nat
  fiscalYear : Nat
  fiscalQuarter : Nat
deriving DecidableEq, Repr

/-- One record of the date dimension.  `DateKey` is
`int(date.strftime('%Y%m%d'))`: the decimal concatenation of the
zero-padded year, month and day, i.e. `y*10000 + m*100 + d`. -/
def mkDateRow (d : Date) : DateRow :=
  { dateKey := d.year * 10000 + d.month * 100 + d.day
    date := d
    year := d.year
    quarter := (d.month - 1) / 3 + 1
    month := d.month
    monthName := monthNames.getD (d.month - 1) ""
    weekDay := dayOfWeekMon0 d + 1
    weekDayName := dayNames.getD (dayOfWeekMon0 d) ""
    isWeekend := if 5 ≤ dayOfWeekMon0 d then 1 else 0
    isHoliday := 0
    fiscalYear := if d.month < 7 then d.year else d.year + 1
    fiscalQuarter := (d.month - 1) / 3 + 1 }

def generate_date_dimension (s e : Date) : List DateRow :=
  (dateRange s e).map mkDateRow

/-! ### Sales fact table (`generate_sales_data`) -/

def shipModes : List String := ["Standard", "Express", "Next Day"]

/-- A sales fact row.  `unitPrice` is `None` with probability 0.02
(`Option.none`), else the product's price.  The derived columns hold
`PVal.null` for Python `None`, `PVal.nan` when NaN propagated from an
injected product cost, and `PVal.num` otherwise. -/
structure Sale where
  salesOrderID : Nat
  orderDate : Option Date
  customerID : Option Nat
  productID : Nat
  quantity : Int
  unitPrice : Option Rat
  discountAmount : Rat
  shipDate : Option Date
  shipMode : String
  salesPersonID : Int
  salesAmount : PVal
  cost : PVal
  profit : PVal
deriving DecidableEq, Repr

instance : Inhabited Sale :=
  ⟨⟨0, Option.none, Option.none, 0, 0, Option.none, 0, Option.none, "", 0,
    PVal.null, PVal.null, PVal.null⟩⟩

/-- The `try` block computing the derived columns
`(SalesAmount, Cost, Profit)`.  The guard `all(x is not None ...)`
reduces to `UnitPrice is not None` since `Quantity` is always an int.
When the guard holds, `Cost` is `product.Cost * Quantity` unless the 5%
event forces `None`; a NaN product cost propagates to NaN.  `Profit` is
`SalesAmount - Cost` when `Cost is not None` (NaN passes that test and
propagates), else `None`.  No statement in the block can raise, so the
`except` arm is dead code. -/
def saleDerived (productCost : Option Rat) (qty : Int) (unitPrice : Option Rat)
    (disc : Rat) (s : RandState) : (PVal × PVal × PVal) × RandState :=
  match unitPrice with
  | some p =>
    let sa : Rat := (qty : Rat) * p - disc
    let ucost := rnd s
    let cost : PVal :=
      if ucost.1 > 1 / 20 then
        match productCost with
        | some c => PVal.num (c * (qty : Rat))
        | Option.none => PVal.nan
      else PVal.null
    let profit : PVal :=
      if cost = PVal.null then PVal.null
      else
        match cost with
        | PVal.num c => PVal.num (sa - c)
        | _ => PVal.nan
    ((PVal.num sa, cost, profit), ucost.2)
  | Option.none => ((PVal.null, PVal.null, PVal.null), s)

/-- One iteration of the transaction loop, in the source's exact
evaluation order (a Python conditional expression evaluates its
condition first, so `CustomerID` and `DiscountAmount` consume one extra
draw only when their condition holds).  `ShipDate` is computed from the
locally drawn `order_date`, before the 2% null substitution is visible. -/
def genSaleRow (customerIds productIds : List Nat) (products : List Product)
    (dates : List Date) (oid : Nat) (s : RandState) : Sale × RandState :=
  let uerr := rnd s
  let hasErr := uerr.1 < 1 / 10
  let od0 := pyChoice dates uerr.2
  let pid := pyChoice productIds od0.2
  let product := (products.find? (fun p => p.productID == pid.1)).getD default
  let uod := rnd pid.2
  let orderDate := if uod.1 > 1 / 50 then some od0.1 else Option.none
  let ucid := rnd uod.2
  let cid :=
    if ucid.1 > 1 / 50 then
      let c := pyChoice customerIds ucid.2
      (some c.1, c.2)
    else (Option.none, ucid.2)
  let qty := if hasErr then pyRandint (-5) 20 cid.2 else pyRandint 1 10 cid.2
  let uup := rnd qty.2
  let unitPrice := if uup.1 > 1 / 50 then some product.unitPrice else Option.none
  let udisc := rnd uup.2
  let disc :=
    if udisc.1 > 4 / 5 then
      let v := pyUniform 0 (product.unitPrice * (3 / 10)) udisc.2
      (round2 v.1, v.2)
    else (0, udisc.2)
  let koff := pyRandint 1 7 disc.2
  let shipDate := some (addDays od0.1 koff.1.toNat)
  let smode := pyChoice shipModes koff.2
  let spid := pyRandint 1 10 smode.2
  let der := saleDerived product.cost qty.1 unitPrice disc.1 spid.2
  ({ salesOrderID := oid, orderDate := orderDate, customerID := cid.1,
     productID := pid.1, quantity := qty.1, unitPrice := unitPrice,
     discountAmount := disc.1, shipDate := shipDate, shipMode := smode.1,
     salesPersonID := spid.1, salesAmount := der.1.1, cost := der.1.2.1,
     profit := der.1.2.2 }, der.2)

def genSalesFrom (customerIds productIds : List Nat) (products : List Product)
    (dates : List Date) : Nat → Nat → RandState → List Sale × RandState
  | _, 0, s => ([], s)
  | oid, n + 1, s =>
    let r := genSaleRow customerIds productIds products dates oid s
    let rest := genSalesFrom customerIds productIds products dates (oid + 1) n r.2
    (r.1 :: rest.1, rest.2)

def generate_sales_data (customersDf : List Customer) (productsDf : List Product)
    (dateDf : List DateRow) (n : Nat) (s : RandState) : List Sale × RandState :=
  genSalesFrom (customersDf.map (fun c => c.customerID))
    (productsDf.map (fun p => p.productID)) productsDf
    (dateDf.map (fun r => r.date)) 1001 n s

/-! ### Quality metrics (`generate_quality_metrics`) -/

def qmStart : Date := ⟨2022, 1, 1⟩

def qmEnd : Date := ⟨2024, 12, 31⟩

structure QMetric where
  date : Date
  totalRecords : Nat
  missingData : Nat
  invalidQuantities : Nat
  highDiscounts : Nat
  dataQualityScore : Rat
deriving DecidableEq, Repr

/-- `daily_data.isnull().any(axis=1)`: some cell of the row is missing
(`None`/`NaN`/`NaT` in the DataFrame). -/
def Sale.hasMissing (r : Sale) : Bool :=
  r.orderDate.isNone || r.customerID.isNone || r.unitPrice.isNone ||
  r.shipDate.isNone || r.salesAmount.isMissing || r.cost.isMissing ||
  r.profit.isMissing

/-- `DiscountAmount > SalesAmount * 0.5`: a pandas elementwise
comparison, which yields `False` whenever `SalesAmount` is missing
(`NaN`, including a `None` stored into the float column). -/
def Sale.highDiscount (r : Sale) : Bool :=
  match r.salesAmount with
  | PVal.num v => decide (v * (1 / 2) < r.discountAmount)
  | _ => false

/-- `sales_df[sales_df['OrderDate'].dt.date == date]`: a `NaT`
(null) order date compares unequal to every day. -/
def onDay (d : Date) (r : Sale) : Bool := r.orderDate == some d

def mkQMetric (sales : List Sale) (d : Date) (score : Rat) : QMetric :=
  let daily := sales.filter (onDay d)
  { date := d
    totalRecords := daily.length
    missingData := (daily.filter Sale.hasMissing).length
    invalidQuantities := (daily.filter (fun r => decide (r.quantity ≤ 0))).length
    highDiscounts := (daily.filter Sale.highDiscount).length
    dataQualityScore := score }

def qmGo (sales : List Sale) : List Date → RandState → List QMetric × RandState
  | [], s => ([], s)
  | d :: ds, s =>
    let sc := pyUniform (9 / 10) 1 s
    let rest := qmGo sales ds sc.2
    (mkQMetric sales d sc.1 :: rest.1, rest.2)

/-- One metrics row per day of the fixed range 2022-01-01..2024-12-31,
independent of the dates present in the sales table. -/
def generate_quality_metrics (sales : List Sale) (s : RandState) :
    List QMetric × RandState :=
  qmGo sales (dateRange qmStart qmEnd) s

/-! ### The full pipeline (`main`, minus CSV serialization) -/

structure Tables where
  customers : List Customer
  products : List Product
  dateDim : List DateRow
  sales : List Sale
  metrics : List QMetric
deriving DecidableEq

/-- `main()`: the five tables produced by one run.  `fk` and `np` are
the Faker and numpy streams (both seeded at import time, hence fixed
across runs); `py` is the `random` module's stream, which the script
never seeds. -/
def runPipeline (fk : FakerState) (np py : RandState)
    (numCustomers numProducts numTransactions : Nat) : Tables :=
  let c := generate_customer_data numCustomers fk py np
  let p := generate_product_data numProducts c.2.1 c.2.2.1 c.2.2.2
  let dd := generate_date_dimension ⟨2022, 1, 1⟩ ⟨2024, 12, 31⟩
  let sl := generate_sales_data c.1 p.1 dd numTransactions p.2.2.1
  let qm := generate_quality_metrics sl.1 sl.2
  ⟨c.1, p.1, dd, sl.1, qm.1⟩

/-! ### Concrete streams used to instantiate theorems -/

/-- A `random`-module stream that always draws 0. -/
def zeroStream : RandState := ⟨fun _ => 0, 0⟩

/-- A stream that always draws 1/2. -/
def halfStream : RandState := ⟨fun _ => 1 / 2, 0⟩

/-- A stream that always draws 9/10. -/
def nineStream : RandState := ⟨fun _ => 9 / 10, 0⟩

/-- A fixed Faker stream (stands for the stream determined by
`Faker.seed(64648)`). -/
def fakerConst : FakerState := ⟨fun _ => "x", fun _ => ⟨2023, 1, 1⟩, 0⟩

theorem zeroStream_wf : WfRand zeroStream := by
  intro n
  constructor <;> norm_num [zeroStream]

theorem halfStream_wf : WfRand halfStream := by
  intro n
  constructor <;> norm_num [halfStream]

/-- A customer fixture for witnesses. -/
def sampleCustomer : Customer :=
  ⟨1, "n", "c", "r", "s", ⟨2023, 1, 1⟩, 1000, "p", some "e", some "p"⟩

/-- A product whose Cost column holds NaN (as after the injection). -/
def nanCostProduct : Product := ⟨1, "p", "c", "s", 10, Option.none, 1, 0, 0, 0⟩

/-- A product with a present cost. -/
def someCostProduct : Product := ⟨1, "p", "c", "s", 10, some 4, 1, 0, 0, 0⟩

/-! ### Sampling helper lemmas -/

theorem floor_mul_bounds {u : Rat} (c : Nat) (h0 : 0 ≤ u) (h1 : u < 1) :
    0 ≤ ⌊u * (c : Rat)⌋ ∧ (0 < c → ⌊u * (c : Rat)⌋ < (c : Int)) := by
  constructor
  · exact Int.floor_nonneg.mpr (mul_nonneg h0 (by positivity))
  · intro hc
    have hcq : (0 : Rat) < (c : Rat) := by exact_mod_cast hc
    have hlt : u * (c : Rat) < (c : Rat) := by nlinarith
    apply Int.floor_lt.mpr
    push_cast
    exact hlt

theorem pyChoice_mem [Inhabited α] (l : List α) (s : RandState) (hs : WfRand s)
    (hl : l ≠ []) : (pyChoice l s).1 ∈ l := by
  obtain ⟨h0, h1⟩ := hs s.k
  have hlen : 0 < l.length := List.length_pos.mpr hl
  have hf := floor_mul_bounds l.length h0 h1
  have hidx : (⌊(s.f s.k) * (l.length : Rat)⌋).toNat < l.length := by
    have := hf.2 hlen
    omega
  unfold pyChoice rnd
  dsimp only
  rw [List.getD_eq_getElem?_getD, List.getElem?_eq_getElem hidx]
  exact List.getElem_mem hidx

theorem pyRandint_bounds (a b : Int) (s : RandState) (hs : WfRand s)
    (hab : a ≤ b) : a ≤ (pyRandint a b s).1 ∧ (pyRandint a b s).1 ≤ b := by
  obtain ⟨h0, h1⟩ := hs s.k
  unfold pyRandint rnd
  dsimp only
  have hc : (0 : Rat) < (b : Rat) - (a : Rat) + 1 := by
    have : (a : Rat) ≤ (b : Rat) := by exact_mod_cast hab
    linarith
  have hnn : 0 ≤ ⌊s.f s.k * ((b : Rat) - (a : Rat) + 1)⌋ :=
    Int.floor_nonneg.mpr (mul_nonneg h0 (le_of_lt hc))
  have hup : ⌊s.f s.k * ((b : Rat) - (a : Rat) + 1)⌋ < b - a + 1 := by
    apply Int.floor_lt.mpr
    have : s.f s.k * ((b : Rat) - (a : Rat) + 1) < 1 * ((b : Rat) - (a : Rat) + 1) :=
      mul_lt_mul_of_pos_right h1 hc
    push_cast
    linarith
  omega

/-! ### Row-level facts about the sales generator -/

theorem rnd_f (s : RandState) : (rnd s).2.f = s.f := rfl

theorem pyUniform_f (a b : Rat) (s : RandState) : (pyUniform a b s).2.f = s.f := rfl

theorem pyRandint_f (a b : Int) (s : RandState) : (pyRandint a b s).2.f = s.f := rfl

theorem pyChoice_f [Inhabited α] (l : List α) (s : RandState) :
    (pyChoice l s).2.f = s.f := rfl

theorem saleDerived_f (pc : Option Rat) (q : Int) (up : Option Rat) (d : Rat)
    (s : RandState) : (saleDerived pc q up d s).2.f = s.f := by
  unfold saleDerived
  match up with
  | some p => rfl
  | Option.none => rfl

/-- The sales generator only advances the stream's cursor; the stream
function itself is threaded through unchanged. -/
theorem genSaleRow_preserves_f (cIds pIds : List Nat) (products : List Product)
    (dates : List Date) (oid : Nat) (s : RandState) :
    (genSaleRow cIds pIds products dates oid s).2.f = s.f := by
  unfold genSaleRow
  dsimp only
  rw [saleDerived_f, pyRandint_f, pyChoice_f, pyRandint_f]
  repeat' split
  all_goals simp [rnd_f, pyUniform_f, pyRandint_f, pyChoice_f]

theorem WfRand_f_eq {s t : RandState} (h : t.f = s.f) (hs : WfRand s) : WfRand t := by
  intro n
  rw [h]
  exact hs n

theorem genSalesFrom_succ (cIds pIds : List Nat) (products : List Product)
    (dates : List Date) (oid n : Nat) (s : RandState) :
    genSalesFrom cIds pIds products dates oid (n + 1) s =
      ((genSaleRow cIds pIds products dates oid s).1 ::
        (genSalesFrom cIds pIds products dates (oid + 1) n
          (genSaleRow cIds pIds products dates oid s).2).1,
       (genSalesFrom cIds pIds products dates (oid + 1) n
          (genSaleRow cIds pIds products dates oid s).2).2) := rfl

/-- Every row of the sales table satisfies any property that each
single loop iteration guarantees from a well-formed stream. -/
theorem genSalesFrom_mem (cIds pIds : List Nat) (products : List Product)
    (dates : List Date) (P : Sale → Prop)
    (hP : ∀ (oid : Nat) (s : RandState), WfRand s →
      P (genSaleRow cIds pIds products dates oid s).1) :
    ∀ (n oid : Nat) (s : RandState), WfRand s →
      ∀ r ∈ (genSalesFrom cIds pIds products dates oid n s).1, P r := by
  intro n
  induction n with
  | zero =>
    intro oid s _ r hr
    simp [genSalesFrom] at hr
  | succ n ih =>
    intro oid s hs r hr
    rw [genSalesFrom_succ] at hr
    rcases List.mem_cons.1 hr with h | h
    · rw [h]
      exact hP oid s hs
    · exact ih (oid + 1) _
        (WfRand_f_eq (genSaleRow_preserves_f cIds pIds products dates oid s) hs) r h

/-! ### Behaviour of the derived-field block -/

theorem saleDerived_none (pc : Option Rat) (q : Int) (d : Rat) (s : RandState) :
    (saleDerived pc q Option.none d s).1 = (PVal.null, PVal.null, PVal.null) := rfl

theorem saleDerived_some_salesAmount (pc : Option Rat) (q : Int) (p : Rat)
    (d : Rat) (s : RandState) :
    (saleDerived pc q (some p) d s).1.1 = PVal.num ((q : Rat) * p - d) := rfl

/-- When the referenced product's cost is NaN and the guard passes, the
NaN propagates: `Cost` and `Profit` are missing in the output whether or
not the 5% force-`None` event fires. -/
theorem saleDerived_nanCost (q : Int) (p : Rat) (d : Rat) (s : RandState) :
    (saleDerived Option.none q (some p) d s).1.2.1.isMissing = true ∧
    (saleDerived Option.none q (some p) d s).1.2.2.isMissing = true := by
  unfold saleDerived
  dsimp only
  split <;> simp [PVal.isMissing]

/-! ### Row-level facts about a single sales iteration -/

/-- The record fields of a generated row are exactly the outputs of the
derived-field block applied to that row's own quantity, unit price,
discount and referenced product cost. -/
theorem genSaleRow_derived (cIds pIds : List Nat) (products : List Product)
    (dates : List Date) (oid : Nat) (s : RandState) :
    ∃ s' : RandState,
      (genSaleRow cIds pIds products dates oid s).1.salesAmount =
        (saleDerived ((products.find? (fun p =>
            p.productID == (genSaleRow cIds pIds products dates oid s).1.productID)).getD
            default).cost
          (genSaleRow cIds pIds products dates oid s).1.quantity
          (genSaleRow cIds pIds products dates oid s).1.unitPrice
          (genSaleRow cIds pIds products dates oid s).1.discountAmount s').1.1 ∧
      (genSaleRow cIds pIds products dates oid s).1.cost =
        (saleDerived ((products.find? (fun p =>
            p.productID == (genSaleRow cIds pIds products dates oid s).1.productID)).getD
            default).cost
          (genSaleRow cIds pIds products dates oid s).1.quantity
          (genSaleRow cIds pIds products dates oid s).1.unitPrice
          (genSaleRow cIds pIds products dates oid s).1.discountAmount s').1.2.1 ∧
      (genSaleRow cIds pIds products dates oid s).1.profit =
        (saleDerived ((products.find? (fun p =>
            p.productID == (genSaleRow cIds pIds products dates oid s).1.productID)).getD
            default).cost
          (genSaleRow cIds pIds products dates oid s).1.quantity
          (genSaleRow cIds pIds products dates oid s).1.unitPrice
          (genSaleRow cIds pIds products dates oid s).1.discountAmount s').1.2.2 := by
  unfold genSaleRow
  dsimp only
  exact ⟨_, rfl, rfl, rfl⟩

theorem pyRandint17_toNat_bounds (s : RandState) (hs : WfRand s) :
    1 ≤ (pyRandint 1 7 s).1.toNat ∧ (pyRandint 1 7 s).1.toNat ≤ 7 := by
  have hb := pyRandint_bounds 1 7 s hs (by norm_num)
  omega

/-- A generated row's `ShipDate` is always present: it is the locally
sampled order date plus 1..7 days, and `OrderDate` is either that same
date or `None` (after the 2% substitution). -/
theorem genSaleRow_ship (cIds pIds : List Nat) (products : List Product)
    (dates : List Date) (oid : Nat) (s : RandState) (hs : WfRand s) :
    ∃ (d0 : Date) (k : Nat),
      (genSaleRow cIds pIds products dates oid s).1.shipDate = some (addDays d0 k) ∧
      1 ≤ k ∧ k ≤ 7 ∧
      ((genSaleRow cIds pIds products dates oid s).1.orderDate = Option.none ∨
        (genSaleRow cIds pIds products dates oid s).1.orderDate = some d0) := by
  unfold genSaleRow
  dsimp only
  refine ⟨_, _, rfl, ?_, ?_, ?_⟩
  case _ =>
    exact (pyRandint17_toNat_bounds _
      (WfRand_f_eq (s := s) (by (repeat' split) <;> rfl) hs)).1
  case _ =>
    exact (pyRandint17_toNat_bounds _
      (WfRand_f_eq (s := s) (by (repeat' split) <;> rfl) hs)).2
  case _ =>
    split
    · right
      rfl
    · left
      rfl

/-! ### Claim C1 -/

/-- Claim C1 (refuted; code bug): the script seeds Faker and numpy but
never the `random` module, so two runs with identical parameters and the
same fixed seeds, differing only in the `random` module's ambient
stream, already produce different customer tables — the outputs are not
byte-identical across repeated runs. -/
theorem c1_unseeded_random_divergence :
    (runPipeline fakerConst zeroStream zeroStream 1 1 0).customers ≠
      (runPipeline fakerConst zeroStream nineStream 1 1 0).customers := by
  with_unfolding_all decide

/-! ### Claim C3 -/

/-- Claim C3 (refuted): a concrete run in which the 2% missing-date
substitution fires yields a row whose `OrderDate` is null while its
`ShipDate` is present (January 2nd 2022), so `ShipDate` is not
undefined/absent for null-`OrderDate` rows. -/
theorem c3_counterexample :
    ((generate_sales_data [sampleCustomer] [someCostProduct]
        [mkDateRow ⟨2022, 1, 1⟩] 1 zeroStream).1.headD default).orderDate =
      Option.none ∧
    ((generate_sales_data [sampleCustomer] [someCostProduct]
        [mkDateRow ⟨2022, 1, 1⟩] 1 zeroStream).1.headD default).shipDate =
      some ⟨2022, 1, 2⟩ := by
  with_unfolding_all decide

/-- Claim C3 (amended): every sales row's `ShipDate` is present; it is
computed from the pre-substitution sampled order date plus a 1..7 day
offset, and when `OrderDate` is non-null, `ShipDate` is that
`OrderDate` plus the offset. -/
theorem c3_shipdate_always_present (cs : List Customer) (ps : List Product)
    (dd : List DateRow) (n : Nat) (s : RandState) (hs : WfRand s) (r : Sale)
    (hr : r ∈ (generate_sales_data cs ps dd n s).1) :
    r.shipDate.isSome = true ∧
    ∀ d : Date, r.orderDate = some d →
      ∃ k : Nat, 1 ≤ k ∧ k ≤ 7 ∧ r.shipDate = some (addDays d k) := by
  refine genSalesFrom_mem _ _ _ _
    (fun r => r.shipDate.isSome = true ∧
      ∀ d : Date, r.orderDate = some d →
        ∃ k : Nat, 1 ≤ k ∧ k ≤ 7 ∧ r.shipDate = some (addDays d k))
    ?_ n 1001 s hs r hr
  intro oid s' hs'
  obtain ⟨d0, k, hship, h1, h7, hod⟩ :=
    genSaleRow_ship (cs.map (fun c => c.customerID)) (ps.map (fun p => p.productID))
      ps (dd.map (fun x => x.date)) oid s' hs'
  constructor
  · rw [hship]
    rfl
  · intro d hd
    rcases hod with hod | hod
    · rw [hd] at hod
      cases hod
    · rw [hd] at hod
      obtain rfl : d = d0 := by injection hod
      exact ⟨k, h1, h7, hship⟩

/-- Witness for C3's amended theorem at a concrete one-row run. -/
theorem c3_shipdate_always_present_witness :
    ((generate_sales_data [sampleCustomer] [someCostProduct]
        [mkDateRow ⟨2022, 1, 1⟩] 1 halfStream).1.headD default).shipDate.isSome = true ∧
    ∀ d : Date,
      ((generate_sales_data [sampleCustomer] [someCostProduct]
        [mkDateRow ⟨2022, 1, 1⟩] 1 halfStream).1.headD default).orderDate = some d →
      ∃ k : Nat, 1 ≤ k ∧ k ≤ 7 ∧
        ((generate_sales_data [sampleCustomer] [someCostProduct]
          [mkDateRow ⟨2022, 1, 1⟩] 1 halfStream).1.headD default).shipDate =
          some (addDays d k) :=
  c3_shipdate_always_present [sampleCustomer] [someCostProduct]
    [mkDateRow ⟨2022, 1, 1⟩] 1 halfStream halfStream_wf _
    (by with_unfolding_all decide)

/-! ### Claim C4 -/

/-- Claim C4 (confirmed): in every sales row, if `UnitPrice` is null
(`Quantity` is never null in the code) then `SalesAmount`, `Cost` and
`Profit` are all null, and when `UnitPrice` is present the row's
`SalesAmount` equals `Quantity * UnitPrice - DiscountAmount` exactly
(no fault can occur in the derived-field block). -/
theorem c4_derived_fields (cs : List Customer) (ps : List Product)
    (dd : List DateRow) (n : Nat) (s : RandState) (hs : WfRand s) (r : Sale)
    (hr : r ∈ (generate_sales_data cs ps dd n s).1) :
    (r.unitPrice = Option.none →
      r.salesAmount = PVal.null ∧ r.cost = PVal.null ∧ r.profit = PVal.null) ∧
    (∀ p : Rat, r.unitPrice = some p →
      r.salesAmount = PVal.num ((r.quantity : Rat) * p - r.discountAmount)) := by
  refine genSalesFrom_mem _ _ _ _
    (fun r => (r.unitPrice = Option.none →
        r.salesAmount = PVal.null ∧ r.cost = PVal.null ∧ r.profit = PVal.null) ∧
      (∀ p : Rat, r.unitPrice = some p →
        r.salesAmount = PVal.num ((r.quantity : Rat) * p - r.discountAmount)))
    ?_ n 1001 s hs r hr
  intro oid s' _
  obtain ⟨s2, hsa, hc, hp⟩ :=
    genSaleRow_derived (cs.map (fun c => c.customerID)) (ps.map (fun p => p.productID))
      ps (dd.map (fun x => x.date)) oid s'
  constructor
  · intro hup
    rw [hup] at hsa hc hp
    rw [hsa, hc, hp, saleDerived_none]
    exact ⟨rfl, rfl, rfl⟩
  · intro p hup
    rw [hup] at hsa
    rw [hsa, saleDerived_some_salesAmount]

/-- Witness for C4 at a concrete one-row run whose `UnitPrice` is
present. -/
theorem c4_derived_fields_witness :
    (((generate_sales_data [sampleCustomer] [someCostProduct]
        [mkDateRow ⟨2022, 1, 1⟩] 1 halfStream).1.headD default).unitPrice =
          Option.none →
      ((generate_sales_data [sampleCustomer] [someCostProduct]
        [mkDateRow ⟨2022, 1, 1⟩] 1 halfStream).1.headD default).salesAmount =
          PVal.null ∧
      ((generate_sales_data [sampleCustomer] [someCostProduct]
        [mkDateRow ⟨2022, 1, 1⟩] 1 halfStream).1.headD default).cost = PVal.null ∧
      ((generate_sales_data [sampleCustomer] [someCostProduct]
        [mkDateRow ⟨2022, 1, 1⟩] 1 halfStream).1.headD default).profit =
          PVal.null) ∧
    (∀ p : Rat,
      ((generate_sales_data [sampleCustomer] [someCostProduct]
        [mkDateRow ⟨2022, 1, 1⟩] 1 halfStream).1.headD default).unitPrice = some p →
      ((generate_sales_data [sampleCustomer] [someCostProduct]
        [mkDateRow ⟨2022, 1, 1⟩] 1 halfStream).1.headD default).salesAmount =
        PVal.num
          ((((generate_sales_data [sampleCustomer] [someCostProduct]
            [mkDateRow ⟨2022, 1, 1⟩] 1 halfStream).1.headD default).quantity : Rat) * p -
            ((generate_sales_data [sampleCustomer] [someCostProduct]
              [mkDateRow ⟨2022, 1, 1⟩] 1 halfStream).1.headD default).discountAmount)) :=
  c4_derived_fields [sampleCustomer] [someCostProduct] [mkDateRow ⟨2022, 1, 1⟩] 1
    halfStream halfStream_wf _ (by with_unfolding_all decide)

/-! ### Claim C10 -/

/-- Claim C10 (confirmed): when a sales row references a product whose
Cost column is missing (NaN after the injection) and the row's
`UnitPrice` is present (`Quantity` is always present), the row's `Cost`
and `Profit` are missing in the output, whether or not the 5%
force-`None` event fires — the NaN product cost propagates through both
computations. -/
theorem c10_nan_cost_propagates (cs : List Customer) (ps : List Product)
    (dd : List DateRow) (n : Nat) (s : RandState) (hs : WfRand s) (r : Sale)
    (hr : r ∈ (generate_sales_data cs ps dd n s).1)
    (hpc : ((ps.find? (fun p => p.productID == r.productID)).getD default).cost =
      Option.none)
    (p : Rat) (hup : r.unitPrice = some p) :
    r.cost.isMissing = true ∧ r.profit.isMissing = true := by
  revert hpc hup
  refine genSalesFrom_mem _ _ _ _
    (fun r => ((ps.find? (fun p => p.productID == r.productID)).getD default).cost =
        Option.none →
      r.unitPrice = some p → r.cost.isMissing = true ∧ r.profit.isMissing = true)
    ?_ n 1001 s hs r hr
  intro oid s' _
  obtain ⟨s2, _, hc, hpr⟩ :=
    genSaleRow_derived (cs.map (fun c => c.customerID)) (ps.map (fun q => q.productID))
      ps (dd.map (fun x => x.date)) oid s'
  intro hpc hup
  rw [hup, hpc] at hc hpr
  constructor
  · rw [hc]
    exact (saleDerived_nanCost _ _ _ _).1
  · rw [hpr]
    exact (saleDerived_nanCost _ _ _ _).2

/-- Witness for C10 at a concrete one-row run referencing a product
with a missing cost. -/
theorem c10_nan_cost_propagates_witness :
    ((generate_sales_data [sampleCustomer] [nanCostProduct]
        [mkDateRow ⟨2022, 1, 1⟩] 1 halfStream).1.headD default).cost.isMissing = true ∧
    ((generate_sales_data [sampleCustomer] [nanCostProduct]
        [mkDateRow ⟨2022, 1, 1⟩] 1 halfStream).1.headD default).profit.isMissing =
      true :=
  c10_nan_cost_propagates [sampleCustomer] [nanCostProduct] [mkDateRow ⟨2022, 1, 1⟩]
    1 halfStream halfStream_wf _ (by with_unfolding_all decide)
    (by with_unfolding_all decide) 10 (by with_unfolding_all decide)

/-! ### Structure of the customer table and the null injections -/

theorem genCustomersFrom_succ (i n : Nat) (fk : FakerState) (py : RandState) :
    genCustomersFrom i (n + 1) fk py =
      ((genCustomerRow i fk py).1 ::
        (genCustomersFrom (i + 1) n (genCustomerRow i fk py).2.1
          (genCustomerRow i fk py).2.2).1,
       (genCustomersFrom (i + 1) n (genCustomerRow i fk py).2.1
          (genCustomerRow i fk py).2.2).2) := rfl

theorem genCustomersFrom_length (n : Nat) :
    ∀ (i : Nat) (fk : FakerState) (py : RandState),
      (genCustomersFrom i n fk py).1.length = n := by
  induction n with
  | zero => intro i fk py; rfl
  | succ n ih =>
    intro i fk py
    rw [genCustomersFrom_succ]
    simp [ih]

/-- Before the injections, every generated customer has a present email
and phone. -/
theorem genCustomersFrom_contact_some (n : Nat) :
    ∀ (i : Nat) (fk : FakerState) (py : RandState),
      ∀ c ∈ (genCustomersFrom i n fk py).1,
        c.email.isSome = true ∧ c.phone.isSome = true := by
  induction n with
  | zero => intro i fk py c hc; simp [genCustomersFrom] at hc
  | succ n ih =>
    intro i fk py c hc
    rw [genCustomersFrom_succ] at hc
    rcases List.mem_cons.1 hc with h | h
    · rw [h]
      exact ⟨rfl, rfl⟩
    · exact ih (i + 1) _ _ c h

theorem setAtIdxs_length (g : α → α) (idxs : List Nat) :
    ∀ (j : Nat) (l : List α), (setAtIdxs g idxs j l).length = l.length := by
  intro j l
  induction l generalizing j with
  | nil => rfl
  | cons x xs ih => simp [setAtIdxs, ih]

theorem mem_setAtIdxs (g : α → α) (idxs : List Nat) :
    ∀ (j : Nat) (l : List α) (x : α), x ∈ setAtIdxs g idxs j l →
      x ∈ l ∨ ∃ y ∈ l, x = g y := by
  intro j l
  induction l generalizing j with
  | nil => intro x hx; simp [setAtIdxs] at hx
  | cons a as ih =>
    intro x hx
    simp only [setAtIdxs] at hx
    rcases List.mem_cons.1 hx with h | h
    · by_cases hj : j ∈ idxs
      · rw [if_pos hj] at h
        exact Or.inr ⟨a, List.mem_cons_self a as, h⟩
      · rw [if_neg hj] at h
        exact Or.inl (h ▸ List.mem_cons_self a as)
    · rcases ih (j + 1) x h with h1 | ⟨y, hy, hxy⟩
      · exact Or.inl (List.mem_cons_of_mem a h1)
      · exact Or.inr ⟨y, List.mem_cons_of_mem a hy, hxy⟩

/-- An overwrite that does not change whether `p` holds leaves the
`p`-count unchanged. -/
theorem filter_setAtIdxs_congr (g : α → α) (p : α → Bool)
    (hg : ∀ x, p (g x) = p x) (idxs : List Nat) :
    ∀ (j : Nat) (l : List α),
      ((setAtIdxs g idxs j l).filter p).length = (l.filter p).length := by
  intro j l
  induction l generalizing j with
  | nil => rfl
  | cons a as ih =>
    simp only [setAtIdxs, List.filter_cons]
    by_cases hj : j ∈ idxs
    · rw [if_pos hj, hg a]
      by_cases hp : p a
      · rw [if_pos hp, if_pos hp]
        simp [ih]
      · rw [if_neg hp, if_neg hp]
        exact ih (j + 1)
    · rw [if_neg hj]
      by_cases hp : p a
      · rw [if_pos hp, if_pos hp]
        simp [ih]
      · rw [if_neg hp, if_neg hp]
        exact ih (j + 1)

/-- Counting rows that satisfy `p` after the overwrite, when `g` forces
`p` and no original row satisfies it: the count is the number of
positions of the list that occur in `idxs`. -/
theorem filter_setAtIdxs_count (g : α → α) (p : α → Bool)
    (hg : ∀ x, p (g x) = true) (idxs : List Nat) :
    ∀ (j : Nat) (l : List α), (∀ x ∈ l, p x = false) →
      ((setAtIdxs g idxs j l).filter p).length =
        ((List.range' j l.length).filter (fun i => decide (i ∈ idxs))).length := by
  intro j l
  induction l generalizing j with
  | nil => intro _; rfl
  | cons a as ih =>
    intro hl
    simp only [setAtIdxs, List.length_cons, List.range'_succ, List.filter_cons]
    by_cases hj : j ∈ idxs
    · rw [if_pos hj]
      rw [hg a, decide_eq_true hj]
      simp only [if_pos]
      simp only [List.length_cons]
      rw [ih (j + 1) (fun x hx => hl x (List.mem_cons_of_mem a hx))]
    · rw [if_neg hj]
      rw [hl a (List.mem_cons_self a as), decide_eq_false hj]
      simp only [Bool.false_eq_true, if_false]
      exact ih (j + 1) (fun x hx => hl x (List.mem_cons_of_mem a hx))

/-- The positions `0..n-1` hitting `idxs` are exactly the distinct
values of `idxs` when every drawn index is below `n`. -/
theorem rangeFilter_mem_eq_dedup_length (idxs : List Nat) (n : Nat)
    (hb : ∀ x ∈ idxs, x < n) :
    ((List.range' 0 n).filter (fun i => decide (i ∈ idxs))).length =
      idxs.dedup.length := by
  have hres : List.range' 0 n = List.range n := (List.range_eq_range' n).symm
  rw [hres]
  have hnd : ((List.range n).filter (fun i => decide (i ∈ idxs))).Nodup :=
    (List.nodup_range n).filter _
  have hfin : ((List.range n).filter (fun i => decide (i ∈ idxs))).toFinset =
      idxs.toFinset := by
    ext x
    simp only [List.mem_toFinset, List.mem_filter, List.mem_range, decide_eq_true_eq]
    constructor
    · intro hx
      exact hx.2
    · intro hx
      exact ⟨hb x hx, hx⟩
  calc ((List.range n).filter (fun i => decide (i ∈ idxs))).length
      = ((List.range n).filter (fun i => decide (i ∈ idxs))).toFinset.card := by
        rw [List.toFinset_card_of_nodup hnd]
    _ = idxs.toFinset.card := by rw [hfin]
    _ = idxs.dedup.length := List.card_toFinset idxs

theorem npChoiceIdx_length (n : Nat) :
    ∀ (k : Nat) (s : RandState), (npChoiceIdx n k s).1.length = k := by
  intro k
  induction k with
  | zero => intro s; rfl
  | succ k ih => intro s; simp [npChoiceIdx, ih]

theorem npChoiceIdx_lt (n : Nat) (hn : 0 < n) :
    ∀ (k : Nat) (s : RandState), WfRand s →
      ∀ x ∈ (npChoiceIdx n k s).1, x < n := by
  intro k
  induction k with
  | zero => intro s _ x hx; simp [npChoiceIdx] at hx
  | succ k ih =>
    intro s hs x hx
    simp only [npChoiceIdx] at hx
    rcases List.mem_cons.1 hx with h | h
    · obtain ⟨h0, h1⟩ := hs s.k
      have hf := floor_mul_bounds n h0 h1
      have := hf.2 hn
      rw [show (rnd s).1 = s.f s.k from rfl] at h
      omega
    · exact ih (rnd s).2 (WfRand_f_eq rfl hs) x h

/-! ### Claim C2 -/

/-- Claim C2 (refuted): `np.random.choice(df.index, size=5)` samples
WITH replacement, so the five drawn Email indices need not be distinct;
with a stream drawing index 0 five times, a 5-row customer table gets
exactly one null Email, not five. -/
theorem c2_counterexample :
    ((generate_customer_data 5 fakerConst zeroStream zeroStream).1.filter
      (fun c => c.email.isNone)).length ≠ 5 := by
  with_unfolding_all decide

/-- Claim C2 (amended): the injection draws 5 indices with replacement
for Email and, independently, 5 for Phone; the number of rows with a
null Email equals the number of distinct drawn Email indices — between
1 and 5, and exactly 5 only when the draws happen to be distinct — and
independently likewise for Phone. -/
theorem c2_null_injection_counts (n : Nat) (hn : 5 ≤ n) (fk : FakerState)
    (py np : RandState) (hnp : WfRand np) :
    ((generate_customer_data n fk py np).1.filter
        (fun c => c.email.isNone)).length = (custEmailIdx n np).dedup.length ∧
    1 ≤ (custEmailIdx n np).dedup.length ∧ (custEmailIdx n np).dedup.length ≤ 5 ∧
    ((generate_customer_data n fk py np).1.filter
        (fun c => c.phone.isNone)).length = (custPhoneIdx n np).dedup.length ∧
    1 ≤ (custPhoneIdx n np).dedup.length ∧ (custPhoneIdx n np).dedup.length ≤ 5 := by
  have hn0 : 0 < n := by omega
  have hnp1 : WfRand (npChoiceIdx n 5 np).2 := by
    apply WfRand_f_eq ?_ hnp
    clear hnp
    induction (5 : Nat) generalizing np with
    | zero => rfl
    | succ k ih => exact ih (rnd np).2
  have hbe : ∀ x ∈ custEmailIdx n np, x < n := npChoiceIdx_lt n hn0 5 np hnp
  have hbp : ∀ x ∈ custPhoneIdx n np, x < n :=
    npChoiceIdx_lt n hn0 5 (npChoiceIdx n 5 np).2 hnp1
  have hle : (custEmailIdx n np).length = 5 := npChoiceIdx_length n 5 np
  have hlp : (custPhoneIdx n np).length = 5 :=
    npChoiceIdx_length n 5 (npChoiceIdx n 5 np).2
  have hene : custEmailIdx n np ≠ [] := by
    intro h
    rw [h] at hle
    simp at hle
  have hpne : custPhoneIdx n np ≠ [] := by
    intro h
    rw [h] at hlp
    simp at hlp
  have base := genCustomersFrom_contact_some n 1 fk py
  have hblen := genCustomersFrom_length n 1 fk py
  have hemail :
      ((generate_customer_data n fk py np).1.filter
        (fun c => c.email.isNone)).length = (custEmailIdx n np).dedup.length := by
    show ((setAtIdxs (fun c : Customer => { c with phone := Option.none }) (custPhoneIdx n np) 0
        (setAtIdxs (fun c : Customer => { c with email := Option.none }) (custEmailIdx n np) 0
          (genCustomersFrom 1 n fk py).1)).filter (fun c => c.email.isNone)).length =
      (custEmailIdx n np).dedup.length
    rw [filter_setAtIdxs_congr (fun c : Customer => { c with phone := Option.none })
      (fun c => c.email.isNone) (fun c => rfl) (custPhoneIdx n np) 0]
    rw [filter_setAtIdxs_count (fun c : Customer => { c with email := Option.none })
      (fun c => c.email.isNone) (fun c => rfl) (custEmailIdx n np) 0
      (genCustomersFrom 1 n fk py).1
      (fun c hc => by
        have := (base c hc).1
        cases he : c.email with
        | none => rw [he] at this; cases this
        | some v => simp [he])]
    rw [hblen]
    exact rangeFilter_mem_eq_dedup_length (custEmailIdx n np) n hbe
  have hphone :
      ((generate_customer_data n fk py np).1.filter
        (fun c => c.phone.isNone)).length = (custPhoneIdx n np).dedup.length := by
    show ((setAtIdxs (fun c : Customer => { c with phone := Option.none }) (custPhoneIdx n np) 0
        (setAtIdxs (fun c : Customer => { c with email := Option.none }) (custEmailIdx n np) 0
          (genCustomersFrom 1 n fk py).1)).filter (fun c => c.phone.isNone)).length =
      (custPhoneIdx n np).dedup.length
    rw [filter_setAtIdxs_count (fun c : Customer => { c with phone := Option.none })
      (fun c => c.phone.isNone) (fun c => rfl) (custPhoneIdx n np) 0
      (setAtIdxs (fun c : Customer => { c with email := Option.none }) (custEmailIdx n np) 0
        (genCustomersFrom 1 n fk py).1)
      (fun c hc => by
        rcases mem_setAtIdxs _ _ 0 _ c hc with h | ⟨y, hy, rfl⟩
        · have := (base c h).2
          cases he : c.phone with
          | none => rw [he] at this; cases this
          | some v => simp [he]
        · have := (base y hy).2
          cases he : y.phone with
          | none => rw [he] at this; cases this
          | some v => simp [he])]
    rw [setAtIdxs_length, hblen]
    exact rangeFilter_mem_eq_dedup_length (custPhoneIdx n np) n hbp
  refine ⟨hemail, ?_, ?_, hphone, ?_, ?_⟩
  · have : (custEmailIdx n np).dedup ≠ [] := by
      intro h
      exact hene ((List.dedup_eq_nil _).mp h)
    have := List.length_pos.mpr this
    omega
  · have := List.Sublist.length_le (List.dedup_sublist (custEmailIdx n np))
    omega
  · have : (custPhoneIdx n np).dedup ≠ [] := by
      intro h
      exact hpne ((List.dedup_eq_nil _).mp h)
    have := List.length_pos.mpr this
    omega
  · have := List.Sublist.length_le (List.dedup_sublist (custPhoneIdx n np))
    omega

/-- Witness for C2's amended theorem at a concrete 5-row run. -/
theorem c2_null_injection_counts_witness :
    ((generate_customer_data 5 fakerConst zeroStream zeroStream).1.filter
        (fun c => c.email.isNone)).length =
      (custEmailIdx 5 zeroStream).dedup.length ∧
    1 ≤ (custEmailIdx 5 zeroStream).dedup.length ∧
    (custEmailIdx 5 zeroStream).dedup.length ≤ 5 ∧
    ((generate_customer_data 5 fakerConst zeroStream zeroStream).1.filter
        (fun c => c.phone.isNone)).length =
      (custPhoneIdx 5 zeroStream).dedup.length ∧
    1 ≤ (custPhoneIdx 5 zeroStream).dedup.length ∧
    (custPhoneIdx 5 zeroStream).dedup.length ≤ 5 :=
  c2_null_injection_counts 5 (by norm_num) fakerConst zeroStream zeroStream
    zeroStream_wf

/-! ### Structure of the product table -/

theorem pyUniform_bounds (a b : Rat) (s : RandState) (hs : WfRand s)
    (hab : a < b) : a ≤ (pyUniform a b s).1 ∧ (pyUniform a b s).1 < b := by
  obtain ⟨h0, h1⟩ := hs s.k
  unfold pyUniform rnd
  dsimp only
  constructor
  · nlinarith
  · nlinarith

/-- Every base product row carries `UnitPrice = round(u, 2)` for a
uniform draw `u` in `[10, 2000)` and
`Cost = round(UnitPrice * f, 2)` for a uniform factor `f` in
`[0.4, 0.7)`. -/
theorem genProductRow_price_cost (i : Nat) (fk : FakerState) (py : RandState)
    (hs : WfRand py) :
    ∃ q f : Rat, 10 ≤ q ∧ q < 2000 ∧ 2 / 5 ≤ f ∧ f < 7 / 10 ∧
      (genProductRow i fk py).1.unitPrice = round2 q ∧
      (genProductRow i fk py).1.cost = some (round2 (round2 q * f)) := by
  unfold genProductRow
  dsimp only
  refine ⟨_, _, ?_, ?_, ?_, ?_, rfl, rfl⟩
  · exact (pyUniform_bounds 10 2000 _ (WfRand_f_eq (s := py) (by rfl) hs)
      (by norm_num)).1
  · exact (pyUniform_bounds 10 2000 _ (WfRand_f_eq (s := py) (by rfl) hs)
      (by norm_num)).2
  · exact (pyUniform_bounds (2 / 5) (7 / 10) _
      (WfRand_f_eq (s := py) (by rfl) hs) (by norm_num)).1
  · exact (pyUniform_bounds (2 / 5) (7 / 10) _
      (WfRand_f_eq (s := py) (by rfl) hs) (by norm_num)).2

theorem genProductRow_preserves_f (i : Nat) (fk : FakerState) (py : RandState) :
    (genProductRow i fk py).2.2.f = py.f := rfl

theorem genProductsFrom_succ (i n : Nat) (fk : FakerState) (py : RandState) :
    genProductsFrom i (n + 1) fk py =
      ((genProductRow i fk py).1 ::
        (genProductsFrom (i + 1) n (genProductRow i fk py).2.1
          (genProductRow i fk py).2.2).1,
       (genProductsFrom (i + 1) n (genProductRow i fk py).2.1
          (genProductRow i fk py).2.2).2) := rfl

theorem genProductsFrom_mem (n : Nat) :
    ∀ (i : Nat) (fk : FakerState) (py : RandState), WfRand py →
      ∀ r ∈ (genProductsFrom i n fk py).1,
        ∃ q f : Rat, 10 ≤ q ∧ q < 2000 ∧ 2 / 5 ≤ f ∧ f < 7 / 10 ∧
          r.unitPrice = round2 q ∧ r.cost = some (round2 (round2 q * f)) := by
  induction n with
  | zero => intro i fk py _ r hr; simp [genProductsFrom] at hr
  | succ n ih =>
    intro i fk py hs r hr
    rw [genProductsFrom_succ] at hr
    rcases List.mem_cons.1 hr with h | h
    · rw [h]
      exact genProductRow_price_cost i fk py hs
    · exact ih (i + 1) _ _
        (WfRand_f_eq (genProductRow_preserves_f i fk py) hs) r h

/-- Indexing after the overwrite: position `i` is mapped through `g`
exactly when `j + i` was drawn. -/
theorem getElem?_setAtIdxs (g : α → α) (idxs : List Nat) :
    ∀ (l : List α) (j i : Nat),
      (setAtIdxs g idxs j l)[i]? =
        if (j + i) ∈ idxs then (l[i]?.map g) else l[i]? := by
  intro l
  induction l with
  | nil => intro j i; simp [setAtIdxs]
  | cons a as ih =>
    intro j i
    cases i with
    | zero =>
      simp only [setAtIdxs, Nat.add_zero, List.getElem?_cons_zero, Option.map_some]
      split <;> rfl
    | succ i =>
      simp only [setAtIdxs, List.getElem?_cons_succ]
      rw [ih (j + 1) i]
      have : j + 1 + i = j + (i + 1) := by omega
      rw [this]

/-- The rounded cost stays below the rounded price: the factor is at
most 0.7 and the two roundings move each value by at most 0.005, which
the 0.3-of-price slack absorbs for prices of at least 10. -/
theorem round2_cost_le_price {q f : Rat} (hq : 10 ≤ q) (hf0 : 0 ≤ f)
    (hf : f < 7 / 10) : round2 (round2 q * f) ≤ round2 q := by
  have hp1 : 10 - 1 / 200 ≤ round2 q := by
    have := le_round2 q
    linarith
  have hpos : (0 : Rat) ≤ round2 q := by linarith
  have h2 : round2 q * f ≤ round2 q * (7 / 10) :=
    mul_le_mul_of_nonneg_left hf.le hpos
  have h3 := round2_le (round2 q * f)
  linarith

/-! ### Claim C5 -/

/-- Claim C5 (confirmed): every generated product row whose position is
in neither the `UnitPrice = 0` injection set nor the `Cost = None`
injection set satisfies `Cost ≤ UnitPrice`, the inequality surviving
the 2-decimal roundings because `UnitPrice ≥ 10` up to rounding. -/
theorem c5_cost_le_price (n : Nat) (fk : FakerState) (py np : RandState)
    (hpy : WfRand py) (i : Nat) (hip : i ∉ prodPriceIdx n np)
    (hic : i ∉ prodCostIdx n np) (r : Product)
    (hr : (generate_product_data n fk py np).1[i]? = some r) :
    ∃ c : Rat, r.cost = some c ∧ c ≤ r.unitPrice := by
  have hstep : (generate_product_data n fk py np).1[i]? =
      (genProductsFrom 1 n fk py).1[i]? := by
    show (setAtIdxs (fun p : Product => { p with cost := Option.none })
        (prodCostIdx n np) 0
        (setAtIdxs (fun p : Product => { p with unitPrice := 0 })
          (prodPriceIdx n np) 0 (genProductsFrom 1 n fk py).1))[i]? =
      (genProductsFrom 1 n fk py).1[i]?
    rw [getElem?_setAtIdxs, getElem?_setAtIdxs]
    rw [Nat.zero_add]
    rw [if_neg hic, if_neg hip]
  rw [hstep] at hr
  have hmem : r ∈ (genProductsFrom 1 n fk py).1 := by
    exact List.getElem?_mem hr
  obtain ⟨q, f, hq, _, hf0, hf, hup, hc⟩ :=
    genProductsFrom_mem n 1 fk py hpy r hmem
  refine ⟨round2 (round2 q * f), hc, ?_⟩
  rw [hup]
  exact round2_cost_le_price hq (by linarith) hf

/-- Witness for C5 at a concrete two-product run whose injections both
hit position 0. -/
theorem c5_cost_le_price_witness :
    ∃ c : Rat,
      ((generate_product_data 2 fakerConst zeroStream zeroStream).1.getD 1
        default).cost = some c ∧
      c ≤ ((generate_product_data 2 fakerConst zeroStream zeroStream).1.getD 1
        default).unitPrice :=
  c5_cost_le_price 2 fakerConst zeroStream zeroStream zeroStream_wf 1
    (by with_unfolding_all decide) (by with_unfolding_all decide) _
    (by with_unfolding_all decide)

/-! ### Calendar order facts -/

theorem Date.le_refl (d : Date) : Date.le d d := by
  unfold Date.le
  omega

theorem Date.le_of_lt {a b : Date} (h : Date.lt a b) : Date.le a b := by
  unfold Date.lt at h
  unfold Date.le
  omega

theorem Date.le_trans {a b c : Date} (h1 : Date.le a b) (h2 : Date.le b c) :
    Date.le a c := by
  unfold Date.le at h1 h2 ⊢
  omega

theorem Date.lt_trans {a b c : Date} (h1 : Date.lt a b) (h2 : Date.lt b c) :
    Date.lt a c := by
  unfold Date.lt at h1 h2 ⊢
  omega

theorem Date.lt_irrefl (a : Date) : ¬Date.lt a a := by
  unfold Date.lt
  omega

theorem Date.lt_of_le_of_ne {a b : Date} (h : Date.le a b) (hne : a ≠ b) :
    Date.lt a b := by
  obtain ⟨ay, am, ad⟩ := a
  obtain ⟨by', bm, bd⟩ := b
  simp only [ne_eq, Date.mk.injEq] at hne
  unfold Date.le at h
  unfold Date.lt
  dsimp only at h hne ⊢
  omega

instance : IsTrans Date Date.lt := ⟨fun _ _ _ => Date.lt_trans⟩

theorem nextDate_lt (d : Date) : Date.lt d (nextDate d) := by
  unfold nextDate Date.lt
  split
  · dsimp only
    omega
  · split <;> dsimp only <;> omega

theorem nextDate_valid {d : Date} (hd : validDate d) : validDate (nextDate d) := by
  obtain ⟨y, m, dd⟩ := d
  have h2 := daysInMonth_bounds y (m + 1)
  have h3 := daysInMonth_bounds (y + 1) 1
  unfold validDate at hd ⊢
  unfold nextDate
  dsimp only at hd ⊢
  split
  · dsimp only
    omega
  · split <;> dsimp only <;> omega

/-- Among valid dates, `nextDate` is the immediate successor: any valid
date strictly after `a` is at or after `nextDate a`. -/
theorem nextDate_le_of_lt {a b : Date} (ha : validDate a) (hb : validDate b)
    (h : Date.lt a b) : Date.le (nextDate a) b := by
  have hsame : daysInMonth a.year a.month = daysInMonth b.year b.month ∨
      ¬(a.year = b.year ∧ a.month = b.month) := by
    by_cases hym : a.year = b.year ∧ a.month = b.month
    · left
      rw [hym.1, hym.2]
    · right
      exact hym
  unfold validDate at ha hb
  unfold Date.lt at h
  unfold nextDate Date.le
  split
  · dsimp only
    rcases hsame with hsame | hsame <;> omega
  · split
    · dsimp only
      rcases hsame with hsame | hsame <;> omega
    · dsimp only
      rcases hsame with hsame | hsame <;> omega

theorem dateRange_eq (s e : Date) :
    dateRange s e =
      if Date.le s e then s :: dateRange (nextDate s) e else [] := by
  rw [dateRange]
  by_cases h : Date.le s e <;> simp [h]

theorem dateRange_head? (s e : Date) :
    (dateRange s e).head? = if Date.le s e then some s else Option.none := by
  rw [dateRange_eq]
  by_cases h : Date.le s e <;> simp [h]

theorem mem_dateRange_le (s e : Date) :
    ∀ d ∈ dateRange s e, Date.le s d ∧ Date.le d e := by
  induction s, e using dateRange.induct with
  | case1 s e hle ih =>
    intro d hd
    rw [dateRange_eq, if_pos hle] at hd
    rcases List.mem_cons.1 hd with h | h
    · exact ⟨h ▸ Date.le_refl s, h ▸ hle⟩
    · obtain ⟨h1, h2⟩ := ih d h
      exact ⟨Date.le_trans (Date.le_of_lt (nextDate_lt s)) h1, h2⟩
  | case2 s e hle =>
    intro d hd
    rw [dateRange_eq, if_neg hle] at hd
    cases hd

theorem mem_dateRange_valid (s e : Date) :
    ∀ d ∈ dateRange s e, validDate s → validDate d := by
  induction s, e using dateRange.induct with
  | case1 s e hle ih =>
    intro d hd hs
    rw [dateRange_eq, if_pos hle] at hd
    rcases List.mem_cons.1 hd with h | h
    · exact h ▸ hs
    · exact ih d h (nextDate_valid hs)
  | case2 s e hle =>
    intro d hd hs
    rw [dateRange_eq, if_neg hle] at hd
    cases hd

theorem mem_dateRange_of (s e d : Date) (hd : validDate d) :
    ∀ _ : validDate s, Date.le s d → Date.le d e → d ∈ dateRange s e := by
  induction s, e using dateRange.induct with
  | case1 s e hle ih =>
    intro hs h1 h2
    rw [dateRange_eq, if_pos hle]
    by_cases hds : d = s
    · exact hds ▸ List.mem_cons_self _ _
    · have hlt : Date.lt s d := Date.lt_of_le_of_ne h1 (fun h => hds h.symm)
      exact List.mem_cons_of_mem s
        (ih (nextDate_valid hs) (nextDate_le_of_lt hs hd hlt) h2)
  | case2 s e hle =>
    intro hs h1 h2
    exact absurd (Date.le_trans h1 h2) hle

theorem chain'_dateRange (s e : Date) : List.Chain' Date.lt (dateRange s e) := by
  induction s, e using dateRange.induct with
  | case1 s e hle ih =>
    rw [dateRange_eq, if_pos hle]
    rw [List.chain'_cons']
    refine ⟨?_, ih⟩
    intro y hy
    rw [dateRange_head?] at hy
    split at hy
    · cases hy
      exact nextDate_lt s
    · cases hy
  | case2 s e hle =>
    rw [dateRange_eq, if_neg hle]
    exact List.chain'_nil

theorem pairwise_dateRange (s e : Date) :
    List.Pairwise Date.lt (dateRange s e) :=
  List.chain'_iff_pairwise.mp (chain'_dateRange s e)

theorem dateKey_lt {a b : Date} (ha : validDate a) (hb : validDate b)
    (h : Date.lt a b) :
    a.year * 10000 + a.month * 100 + a.day <
      b.year * 10000 + b.month * 100 + b.day := by
  have ha31 := daysInMonth_bounds a.year a.month
  have hb31 := daysInMonth_bounds b.year b.month
  unfold validDate at ha hb
  unfold Date.lt at h
  omega

/-! ### Claim C6 -/

/-- Claim C6 (confirmed): for every valid inclusive start/end pair the
date dimension contains the days between them exactly (each valid day
in the interval appears, no day twice), its `DateKey`s are strictly
increasing down the table, and each row's `DateKey` equals
`year*10000 + month*100 + day` of the row's date. -/
theorem c6_date_dimension (s e : Date) (hs : validDate s) (he : validDate e) :
    (∀ d : Date, (∃ r ∈ generate_date_dimension s e, r.date = d) ↔
      (validDate d ∧ Date.le s d ∧ Date.le d e)) ∧
    List.Pairwise (fun a b => a.dateKey < b.dateKey) (generate_date_dimension s e) ∧
    (∀ r ∈ generate_date_dimension s e,
      r.dateKey = r.date.year * 10000 + r.date.month * 100 + r.date.day) ∧
    ((generate_date_dimension s e).map (fun r => r.date)).Nodup := by
  have hvalid : ∀ d ∈ dateRange s e, validDate d :=
    fun d hd => mem_dateRange_valid s e d hd hs
  have hkeys : List.Pairwise (fun a b => a.dateKey < b.dateKey)
      (generate_date_dimension s e) := by
    unfold generate_date_dimension
    rw [List.pairwise_map]
    refine List.Pairwise.imp_of_mem ?_ (pairwise_dateRange s e)
    intro a b hain hbin hab
    show (mkDateRow a).dateKey < (mkDateRow b).dateKey
    unfold mkDateRow
    dsimp only
    exact dateKey_lt (hvalid a hain) (hvalid b hbin) hab
  refine ⟨?_, hkeys, ?_, ?_⟩
  · intro d
    constructor
    · rintro ⟨r, hr, rfl⟩
      unfold generate_date_dimension at hr
      obtain ⟨d', hd', rfl⟩ := List.mem_map.1 hr
      obtain ⟨h1, h2⟩ := mem_dateRange_le s e d' hd'
      exact ⟨hvalid d' hd', h1, h2⟩
    · rintro ⟨hd, h1, h2⟩
      refine ⟨mkDateRow d, ?_, rfl⟩
      unfold generate_date_dimension
      exact List.mem_map_of_mem mkDateRow (mem_dateRange_of s e d hd hs h1 h2)
  · intro r hr
    unfold generate_date_dimension at hr
    obtain ⟨d', _, rfl⟩ := List.mem_map.1 hr
    rfl
  · show List.Pairwise Ne ((generate_date_dimension s e).map (fun r => r.date))
    rw [List.pairwise_map]
    refine List.Pairwise.imp_of_mem ?_ hkeys
    intro a b ha hb hab hdd
    unfold generate_date_dimension at ha hb
    obtain ⟨da, _, rfl⟩ := List.mem_map.1 ha
    obtain ⟨db, _, rfl⟩ := List.mem_map.1 hb
    have hde : da = db := hdd
    rw [hde] at hab
    exact absurd hab (by omega)

/-- Witness for C6 at a concrete leap-month range. -/
theorem c6_date_dimension_witness :
    (∀ d : Date,
      (∃ r ∈ generate_date_dimension ⟨2024, 2, 27⟩ ⟨2024, 3, 2⟩, r.date = d) ↔
      (validDate d ∧ Date.le ⟨2024, 2, 27⟩ d ∧ Date.le d ⟨2024, 3, 2⟩)) ∧
    List.Pairwise (fun a b => a.dateKey < b.dateKey)
      (generate_date_dimension ⟨2024, 2, 27⟩ ⟨2024, 3, 2⟩) ∧
    (∀ r ∈ generate_date_dimension ⟨2024, 2, 27⟩ ⟨2024, 3, 2⟩,
      r.dateKey = r.date.year * 10000 + r.date.month * 100 + r.date.day) ∧
    ((generate_date_dimension ⟨2024, 2, 27⟩ ⟨2024, 3, 2⟩).map
      (fun r => r.date)).Nodup :=
  c6_date_dimension ⟨2024, 2, 27⟩ ⟨2024, 3, 2⟩ (by decide) (by decide)

/-! ### Structure of the quality metrics table -/

theorem qmGo_succ (sales : List Sale) (d : Date) (ds : List Date) (st : RandState) :
    qmGo sales (d :: ds) st =
      (mkQMetric sales d (pyUniform (9 / 10) 1 st).1 ::
        (qmGo sales ds (pyUniform (9 / 10) 1 st).2).1,
       (qmGo sales ds (pyUniform (9 / 10) 1 st).2).2) := rfl

theorem qmGo_map_date (sales : List Sale) :
    ∀ (days : List Date) (st : RandState),
      (qmGo sales days st).1.map (fun m => m.date) = days := by
  intro days
  induction days with
  | nil => intro st; rfl
  | cons d ds ih =>
    intro st
    rw [qmGo_succ]
    simp only [List.map_cons, ih]
    rfl

theorem qmGo_mem (sales : List Sale) :
    ∀ (days : List Date) (st : RandState), ∀ m ∈ (qmGo sales days st).1,
      m.date ∈ days ∧
      m.totalRecords = (sales.filter (onDay m.date)).length ∧
      m.highDiscounts =
        ((sales.filter (onDay m.date)).filter Sale.highDiscount).length := by
  intro days
  induction days with
  | nil => intro st m hm; simp [qmGo] at hm
  | cons d ds ih =>
    intro st m hm
    rw [qmGo_succ] at hm
    rcases List.mem_cons.1 hm with h | h
    · rw [h]
      exact ⟨List.mem_cons_self _ _, rfl, rfl⟩
    · obtain ⟨h1, h2, h3⟩ := ih _ m h
      exact ⟨List.mem_cons_of_mem d h1, h2, h3⟩

theorem qmGo_map_total (sales : List Sale) :
    ∀ (days : List Date) (st : RandState),
      (qmGo sales days st).1.map (fun m => m.totalRecords) =
        days.map (fun d => (sales.filter (onDay d)).length) := by
  intro days
  induction days with
  | nil => intro st; rfl
  | cons d ds ih =>
    intro st
    rw [qmGo_succ]
    simp only [List.map_cons, ih]
    rfl

/-- Splitting a count along a sub-predicate: rows satisfying `p` all
satisfy `q`, so the `q`-count is the `p`-count plus the `q`-count among
the non-`p` rows. -/
theorem count_split (p q : α → Bool) (h : ∀ x, p x = true → q x = true) :
    ∀ l : List α,
      (l.filter q).length =
        (l.filter p).length + ((l.filter (fun x => !(p x))).filter q).length := by
  intro l
  induction l with
  | nil => rfl
  | cons a as ih =>
    by_cases hp : p a = true
    · have hq := h a hp
      simp only [List.filter_cons, hp, hq, Bool.not_true, Bool.false_eq_true,
        eq_self_iff_true, ite_true, ite_false, List.length_cons]
      omega
    · rw [Bool.not_eq_true] at hp
      by_cases hq : q a = true
      · simp only [List.filter_cons, hp, hq, Bool.not_false, Bool.false_eq_true,
          eq_self_iff_true, ite_true, ite_false, List.length_cons]
        omega
      · rw [Bool.not_eq_true] at hq
        simp only [List.filter_cons, hp, hq, Bool.not_false, Bool.false_eq_true,
          eq_self_iff_true, ite_true, ite_false]
        omega

theorem onDay_implies_isSome (d : Date) (r : Sale) (h : onDay d r = true) :
    r.orderDate.isSome = true := by
  unfold onDay at h
  rw [beq_iff_eq] at h
  rw [h]
  rfl

/-- Rows matching `q` never match `p`, so pre-filtering away the
`p`-rows does not change the `q`-count. -/
theorem filter_length_of_excl (p q : α → Bool) (hpq : ∀ x, q x = true → p x = false) :
    ∀ l : List α,
      ((l.filter (fun x => !(p x))).filter q).length = (l.filter q).length := by
  intro l
  induction l with
  | nil => rfl
  | cons a as ih =>
    by_cases hq : q a = true
    · have hp := hpq a hq
      simp only [List.filter_cons, hp, hq, Bool.not_false, Bool.false_eq_true,
        eq_self_iff_true, ite_true, ite_false, List.length_cons]
      omega
    · rw [Bool.not_eq_true] at hq
      by_cases hp : p a = true
      · simp only [List.filter_cons, hp, hq, Bool.not_true, Bool.false_eq_true,
          eq_self_iff_true, ite_true, ite_false]
        omega
      · rw [Bool.not_eq_true] at hp
        simp only [List.filter_cons, hp, hq, Bool.not_false, Bool.false_eq_true,
          eq_self_iff_true, ite_true, ite_false, List.length_cons]
        omega

theorem nodup_dateRange (s e : Date) : (dateRange s e).Nodup := by
  refine (pairwise_dateRange s e).imp ?_
  intro a b hab he
  rw [he] at hab
  exact Date.lt_irrefl b hab

/-- Summing the per-day match counts over a duplicate-free day list
that covers every present order date yields the number of rows with a
present order date. -/
theorem sum_day_counts :
    ∀ days : List Date, days.Nodup →
      ∀ sales : List Sale,
        (∀ r ∈ sales, r.orderDate.isSome = true →
          ∃ d ∈ days, r.orderDate = some d) →
        (days.map (fun d => (sales.filter (onDay d)).length)).sum =
          (sales.filter (fun r => r.orderDate.isSome)).length := by
  intro days
  induction days with
  | nil =>
    intro _ sales hcov
    simp only [List.map_nil, List.sum_nil]
    symm
    rw [List.length_eq_zero, List.filter_eq_nil_iff]
    intro r hr hsome
    obtain ⟨d, hd, _⟩ := hcov r hr hsome
    cases hd
  | cons d ds ih =>
    intro hnd sales hcov
    obtain ⟨hdnot, hnd'⟩ := List.nodup_cons.1 hnd
    rw [List.map_cons, List.sum_cons]
    have hmapeq : ds.map (fun x => (sales.filter (onDay x)).length) =
        ds.map (fun x =>
          ((sales.filter (fun r => !(onDay d r))).filter (onDay x)).length) := by
      apply List.map_congr_left
      intro d' hd'
      symm
      apply filter_length_of_excl
      intro r hq
      unfold onDay at hq ⊢
      rw [beq_iff_eq] at hq
      rw [hq]
      have hne : d' ≠ d := fun h => hdnot (h ▸ hd')
      simp only [beq_eq_false_iff_ne, ne_eq, Option.some.injEq]
      exact hne
    rw [hmapeq]
    rw [ih hnd' (sales.filter (fun r => !(onDay d r))) ?_]
    · have := count_split (onDay d) (fun r => r.orderDate.isSome)
        (onDay_implies_isSome d) sales
      omega
    · intro r hr hsome
      obtain ⟨hrs, hnp⟩ := List.mem_filter.1 hr
      rw [Bool.not_eq_true'] at hnp
      obtain ⟨dd, hdd, heq⟩ := hcov r hrs hsome
      rcases List.mem_cons.1 hdd with h | h
      · exfalso
        unfold onDay at hnp
        rw [heq, h] at hnp
        simp at hnp
      · exact ⟨dd, h, heq⟩

/-! ### Claim C7 -/

/-- Claim C7 (confirmed): for every sales table the quality metrics
table has exactly one row per calendar day of the fixed range
2022-01-01..2024-12-31, in ascending date order, and each day's
`TotalRecords` is the number of sales rows whose `OrderDate` equals
that day. -/
theorem c7_quality_metrics (sales : List Sale) (st : RandState) :
    ((generate_quality_metrics sales st).1.map (fun m => m.date) =
      dateRange qmStart qmEnd) ∧
    (∀ d : Date, (∃ m ∈ (generate_quality_metrics sales st).1, m.date = d) ↔
      (validDate d ∧ Date.le qmStart d ∧ Date.le d qmEnd)) ∧
    List.Pairwise (fun a b => Date.lt a.date b.date)
      (generate_quality_metrics sales st).1 ∧
    ((generate_quality_metrics sales st).1.map (fun m => m.date)).Nodup ∧
    (∀ m ∈ (generate_quality_metrics sales st).1,
      m.totalRecords = (sales.filter (onDay m.date)).length) := by
  have hmap : (generate_quality_metrics sales st).1.map (fun m => m.date) =
      dateRange qmStart qmEnd := qmGo_map_date sales (dateRange qmStart qmEnd) st
  refine ⟨hmap, ?_, ?_, ?_, ?_⟩
  · intro d
    constructor
    · rintro ⟨m, hm, rfl⟩
      have hdr : m.date ∈ dateRange qmStart qmEnd :=
        (qmGo_mem sales (dateRange qmStart qmEnd) st m hm).1
      obtain ⟨h1, h2⟩ := mem_dateRange_le qmStart qmEnd m.date hdr
      exact ⟨mem_dateRange_valid qmStart qmEnd m.date hdr (by decide), h1, h2⟩
    · rintro ⟨hd, h1, h2⟩
      have hdr : d ∈ dateRange qmStart qmEnd :=
        mem_dateRange_of qmStart qmEnd d hd (by decide) h1 h2
      rw [← hmap] at hdr
      obtain ⟨m, hm, hmd⟩ := List.mem_map.1 hdr
      exact ⟨m, hm, hmd⟩
  · have hpw := pairwise_dateRange qmStart qmEnd
    rw [← hmap] at hpw
    exact List.pairwise_map.1 hpw
  · rw [hmap]
    exact nodup_dateRange qmStart qmEnd
  · intro m hm
    exact (qmGo_mem sales (dateRange qmStart qmEnd) st m hm).2.1

/-- Witness for C7 at the empty sales table. -/
theorem c7_quality_metrics_witness :
    ((generate_quality_metrics [] zeroStream).1.map (fun m => m.date) =
      dateRange qmStart qmEnd) ∧
    (∀ d : Date, (∃ m ∈ (generate_quality_metrics [] zeroStream).1, m.date = d) ↔
      (validDate d ∧ Date.le qmStart d ∧ Date.le d qmEnd)) ∧
    List.Pairwise (fun a b => Date.lt a.date b.date)
      (generate_quality_metrics [] zeroStream).1 ∧
    ((generate_quality_metrics [] zeroStream).1.map (fun m => m.date)).Nodup ∧
    (∀ m ∈ (generate_quality_metrics [] zeroStream).1,
      m.totalRecords = (List.filter (onDay m.date) []).length) :=
  c7_quality_metrics [] zeroStream

/-! ### Claim C8 -/

/-- Claim C8 (confirmed): the high-discount test
`DiscountAmount > SalesAmount * 0.5` is `False` for every row whose
`SalesAmount` is missing (pandas comparisons with `NaN` are `False`),
so such rows are never counted in any day's `HighDiscounts`: each day's
count ranges only over rows with a present `SalesAmount`. -/
theorem c8_null_salesamount_not_high_discount (sales : List Sale) (st : RandState) :
    (∀ r : Sale, r.salesAmount.isMissing = true → r.highDiscount = false) ∧
    (∀ m ∈ (generate_quality_metrics sales st).1,
      m.highDiscounts = ((sales.filter (onDay m.date)).filter
        (fun r => !(r.salesAmount.isMissing) && r.highDiscount)).length) := by
  have h1 : ∀ r : Sale, r.salesAmount.isMissing = true → r.highDiscount = false := by
    intro r h
    unfold Sale.highDiscount
    cases hr : r.salesAmount with
    | num q =>
      rw [hr] at h
      cases h
    | nan => rfl
    | null => rfl
  refine ⟨h1, ?_⟩
  intro m hm
  rw [(qmGo_mem sales (dateRange qmStart qmEnd) st m hm).2.2]
  congr 1
  apply List.filter_congr
  intro r _
  cases hmiss : r.salesAmount.isMissing with
  | true =>
    rw [h1 r hmiss]
    rfl
  | false =>
    rw [Bool.not_false, Bool.true_and]

/-- Witness for C8 at the empty sales table. -/
theorem c8_null_salesamount_not_high_discount_witness :
    (∀ r : Sale, r.salesAmount.isMissing = true → r.highDiscount = false) ∧
    (∀ m ∈ (generate_quality_metrics [] zeroStream).1,
      m.highDiscounts = ((List.filter (onDay m.date) []).filter
        (fun r => !(r.salesAmount.isMissing) && r.highDiscount)).length) :=
  c8_null_salesamount_not_high_discount [] zeroStream

/-! ### Claim C9 -/

/-- Claim C9 (confirmed): a sales row with a null `OrderDate` matches
no day's filter, so it contributes to no day's counts; consequently,
when every present `OrderDate` is a valid day of the fixed 2022–2024
range (as holds for tables produced by the pipeline, whose order dates
are drawn from that date dimension), the `TotalRecords` column sums to
the number of rows with a present `OrderDate`. -/
theorem c9_null_dates_uncounted (sales : List Sale) (st : RandState)
    (hin : ∀ r ∈ sales, ∀ d : Date, r.orderDate = some d →
      validDate d ∧ Date.le qmStart d ∧ Date.le d qmEnd) :
    (∀ r ∈ sales, r.orderDate = Option.none →
      ∀ m ∈ (generate_quality_metrics sales st).1, onDay m.date r = false) ∧
    ((generate_quality_metrics sales st).1.map (fun m => m.totalRecords)).sum =
      (sales.filter (fun r => r.orderDate.isSome)).length := by
  constructor
  · intro r _ h0 m _
    unfold onDay
    rw [h0]
    rfl
  · unfold generate_quality_metrics
    rw [qmGo_map_total sales (dateRange qmStart qmEnd) st]
    apply sum_day_counts (dateRange qmStart qmEnd)
      (nodup_dateRange qmStart qmEnd) sales
    intro r hr hsome
    obtain ⟨d, hd⟩ := Option.isSome_iff_exists.1 hsome
    obtain ⟨hv, hle1, hle2⟩ := hin r hr d hd
    exact ⟨d, mem_dateRange_of qmStart qmEnd d hv (by decide) hle1 hle2, hd⟩

/-- Witness for C9 at the empty sales table. -/
theorem c9_null_dates_uncounted_witness :
    (∀ r : Sale, r ∈ ([] : List Sale) → r.orderDate = Option.none →
      ∀ m ∈ (generate_quality_metrics [] zeroStream).1, onDay m.date r = false) ∧
    ((generate_quality_metrics [] zeroStream).1.map (fun m => m.totalRecords)).sum =
      (List.filter (fun r : Sale => r.orderDate.isSome) ([] : List Sale)).length :=
  c9_null_dates_uncounted [] zeroStream (fun r hr => absurd hr (List.not_mem_nil r))

end PBISales
